import Mathlib

/-
  Verification of the JSON extraction, schema-shape validation and
  submission utilities of the flow-builder application
  (src/unnamed/part_003: jsonValidation.ts and typebotApi.ts).

  Modelling conventions:
  * Free-form text is modelled as `List Char` (all relevant characters are
    plain code points, so JavaScript's UTF-16 representation is immaterial).
  * JavaScript runtime values produced by `JSON.parse` are modelled by the
    inductive `JsonValue`; an absent property is `Option.none`.
  * `JSON.parse` itself is a platform builtin, not code of the repository;
    functions that call it take a `jsonParse` function as an explicit
    parameter, so every theorem holds for an arbitrary parse oracle.
  * JavaScript regular expressions are translated by their matching
    semantics on the concrete patterns used by the source, as direct
    recursive functions (leftmost match, greedy / lazy behaviour of the
    concrete pattern), documented at each definition.
-/

/-- JavaScript's whitespace class: the characters matched by `\s` in a regex
and stripped by `String.prototype.trim` (ASCII whitespace, NBSP, BOM; the
rare exotic Unicode space separators are not used by any input considered). -/
def isJsWS (c : Char) : Bool :=
  c = ' ' || c = '\t' || c = '\n' || c = '\r' || c = '\x0b' ||
  c = '\x0c' || c = '\u00A0' || c = '\uFEFF'

/-- `text.trim()` of JavaScript: strip leading and trailing whitespace. -/
def jsTrim (s : List Char) : List Char :=
  ((s.dropWhile isJsWS).reverse.dropWhile isJsWS).reverse

/-- The three-backtick fence delimiter of a markdown code block. -/
def fenceMark : List Char := "```".toList

/-- Split a text at the first occurrence of the fence `` ``` ``:
`splitFirstFence s = some (a, b)` when `s = a ++ fenceMark ++ b` and `a`
holds no earlier fence occurrence; `none` when no fence occurs.  This is the
leftmost-match search a JavaScript regex performs for a literal pattern. -/
def splitFirstFence : List Char → Option (List Char × List Char)
  | [] => none
  | c :: rest =>
    if fenceMark.isPrefixOf (c :: rest) then some ([], rest.drop 2)
    else (splitFirstFence rest).map (fun p => (c :: p.1, p.2))

/-- The `(?:json)?` tag of the fenced-block regex: greedily consume a literal
`json` right after the opening fence when present. (Backtracking never
reverses this choice: `json` holds no backtick, so consuming it cannot skip
a closing fence.) -/
def stripTagJson (s : List Char) : List Char :=
  if ("json".toList).isPrefixOf s then s.drop 4 else s

/-- The source's fenced-block extraction
`text.match(/```(?:json)?\s*\n?([\s\S]*?)\n?```/)`, returning the capture
group (`markdownMatch[1]`).  Semantics of that regex, translated:
the match starts at the first fence occurrence (leftmost match; if the
first fence has no later disjoint fence no other start can have one);
`(?:json)?` greedily takes a literal tag; `\s*\n?` greedily takes the run
of whitespace after it; the lazy `([\s\S]*?)\n?` makes the capture end at
the first later fence occurrence, giving one trailing newline back to the
`\n?`. -/
def matchFencedBlock (s : List Char) : Option (List Char) :=
  match splitFirstFence s with
  | none => none
  | some (_, afterOpen) =>
    let afterTag := stripTagJson afterOpen
    let afterWS := afterTag.dropWhile isJsWS
    match splitFirstFence afterWS with
    | none => none
    | some (body, _) =>
      some (if body.getLast? = some '\n' then body.dropLast else body)

/-- Prefix of a text up to and including the last occurrence of `c`
(`none` when `c` does not occur). -/
def takeThroughLast (c : Char) : List Char → Option (List Char)
  | [] => none
  | x :: xs =>
    match takeThroughLast c xs with
    | some r => some (x :: r)
    | none => if x = c then some [c] else none

/-- The source's raw-object extraction `text.match(/\{[\s\S]*\}/)`, returning
the whole match (`jsonMatch[0]`).  Semantics of that regex, translated: the
engine advances the start position to the first `{` from which a `}` still
follows, and the greedy `[\s\S]*` extends the match to the last `}` of the
text. -/
def braceSpan : List Char → Option (List Char)
  | [] => none
  | c :: rest =>
    if c = '{' then
      match takeThroughLast '}' rest with
      | some r => some (c :: r)
      | none => braceSpan rest
    else braceSpan rest

/-- `extractJSONFromText` (src/unnamed/part_003 lines 110-130): try the
fenced block (trimmed capture), then the first-`{`-to-last-`}` span
(trimmed), then the whole trimmed text when it is brace-delimited,
else `null`. -/
def extractJSONFromText (text : List Char) : Option (List Char) :=
  match matchFencedBlock text with
  | some captured => some (jsTrim captured)
  | none =>
    match braceSpan text with
    | some span => some (jsTrim span)
    | none =>
      let trimmed := jsTrim text
      if trimmed.head? = some '{' && trimmed.getLast? = some '}' then
        some trimmed
      else none

/-- Substring test: does `pat` occur contiguously inside `s`? -/
def occursIn (pat : List Char) : List Char → Bool
  | [] => pat.isPrefixOf ([] : List Char)
  | c :: rest => pat.isPrefixOf (c :: rest) || occursIn pat rest

/-- Spec-side description of extraction step 2, following the claim's words:
"the span from the text's first `{` to its last `}`", when such a span
exists (i.e. some `}` follows the first `{`). -/
def specBraceSpan (s : List Char) : Option (List Char) :=
  let fromFirstOpen := s.dropWhile (fun c => c != '{')
  let toLastClose := (fromFirstOpen.reverse.dropWhile (fun c => c != '}')).reverse
  if toLastClose.isEmpty then none else some toLastClose

/-- Spec-side description of the whole Extractor, following the claim's
words: fenced block interior trimmed; else the first-`{`-to-last-`}` span
trimmed; else the trimmed text when it starts with `{` and ends with `}`;
else the not-found outcome. -/
def specExtract (text : List Char) : Option (List Char) :=
  match matchFencedBlock text with
  | some captured => some (jsTrim captured)
  | none =>
    match specBraceSpan text with
    | some span => some (jsTrim span)
    | none =>
      let trimmed := jsTrim text
      if trimmed.head? = some '{' && trimmed.getLast? = some '}' then
        some trimmed
      else none

/-- A JavaScript value as produced by `JSON.parse`: the JSON data model.
Numbers are modelled as integers (no claim involves fractional values, and
JSON has no NaN, so truthiness `n ≠ 0` is faithful). -/
inductive JsonValue : Type where
  | null : JsonValue
  | bool (b : Bool) : JsonValue
  | num (n : Int) : JsonValue
  | str (s : String) : JsonValue
  | arr (elems : List JsonValue) : JsonValue
  | obj (fields : List (String × JsonValue)) : JsonValue

/-- Property lookup in an object's field list; a later duplicate key wins,
as in a JavaScript object built by `JSON.parse`. -/
def lookupLast (k : String) : List (String × JsonValue) → Option JsonValue
  | [] => none
  | f :: rest =>
    match lookupLast k rest with
    | some v => some v
    | none => if f.1 = k then some f.2 else none

/-- JavaScript property access `v.k`: a field of an object, `undefined`
(here `none`) on any other receiver (no claim reads index properties). -/
def jsGet (v : JsonValue) (k : String) : Option JsonValue :=
  match v with
  | .obj fields => lookupLast k fields
  | _ => none

/-- JavaScript's `typeof` on a parsed-JSON value (arrays and `null` are
`"object"`). -/
def typeofJs : JsonValue → String
  | .null => "object"
  | .bool _ => "boolean"
  | .num _ => "number"
  | .str _ => "string"
  | .arr _ => "object"
  | .obj _ => "object"

/-- `typeof` on a possibly-absent value: an absent property is
`"undefined"`. -/
def typeofJsOpt : Option JsonValue → String
  | none => "undefined"
  | some v => typeofJs v

/-- JavaScript truthiness of a parsed-JSON value: `null`, `false`, `0` and
`""` are falsy; every object and array is truthy. -/
def jsTruthy : JsonValue → Bool
  | .null => false
  | .bool b => b
  | .num n => n != 0
  | .str s => s != ""
  | .arr _ => true
  | .obj _ => true

/-- Truthiness of a possibly-absent value (`undefined` is falsy). -/
def jsTruthyOpt : Option JsonValue → Bool
  | none => false
  | some v => jsTruthy v

/-- `Array.isArray` on a possibly-absent value. -/
def isArrayOpt : Option JsonValue → Bool
  | some (.arr _) => true
  | _ => false

/-- `json === null` of the source's first guard. -/
def isNullJs : JsonValue → Bool
  | .null => true
  | _ => false

/-- The `ValidationResult` interface of the source:
`{ valid: boolean; data?: TypebotJSON; errors?: string[] }`. -/
structure ValidationResult where
  valid : Bool
  data : Option JsonValue
  errors : Option (List String)

/-- Error message of the top-level type check. -/
def msgNotObject : String := "JSON must be an object"

/-- Error message of the `workspaceId` check. -/
def msgWorkspaceId : String := "Missing or invalid \"workspaceId\" field"

/-- Error message of the `typebot` container check. -/
def msgTypebot : String := "Missing or invalid \"typebot\" object"

/-- Error message of the `typebot.name` check. -/
def msgName : String := "Typebot must have a \"name\" field"

/-- Error message of the `typebot.groups` check. -/
def msgGroups : String := "Typebot must have a \"groups\" array"

/-- Error message of the `typebot.edges` check. -/
def msgEdges : String := "Typebot must have an \"edges\" array"

/-- Error message of the optional `typebot.variables` check. -/
def msgVariables : String := "Typebot \"variables\" must be an array if provided"

/-- Error message of the optional `typebot.events` check. -/
def msgEvents : String := "Typebot \"events\" must be an array if provided"

/-- The `workspaceId` check of `validateTypebotSchema`: the error pushed
when `!json.workspaceId || typeof json.workspaceId !== 'string'`. -/
def wsError (json : JsonValue) : List String :=
  if !(jsTruthyOpt (jsGet json "workspaceId")) ||
     !(typeofJsOpt (jsGet json "workspaceId") = "string") then [msgWorkspaceId]
  else []

/-- The `typebot.name` check: `!typebot.name || typeof typebot.name !== 'string'`. -/
def nameError (typebot : JsonValue) : List String :=
  if !(jsTruthyOpt (jsGet typebot "name")) ||
     !(typeofJsOpt (jsGet typebot "name") = "string") then [msgName]
  else []

/-- The `typebot.groups` check: `!Array.isArray(typebot.groups)`. -/
def groupsError (typebot : JsonValue) : List String :=
  if !(isArrayOpt (jsGet typebot "groups")) then [msgGroups] else []

/-- The `typebot.edges` check: `!Array.isArray(typebot.edges)`. -/
def edgesError (typebot : JsonValue) : List String :=
  if !(isArrayOpt (jsGet typebot "edges")) then [msgEdges] else []

/-- The optional `typebot.variables` check:
`typebot.variables && !Array.isArray(typebot.variables)`. -/
def variablesError (typebot : JsonValue) : List String :=
  if jsTruthyOpt (jsGet typebot "variables") &&
     !(isArrayOpt (jsGet typebot "variables")) then [msgVariables]
  else []

/-- The optional `typebot.events` check:
`typebot.events && !Array.isArray(typebot.events)`. -/
def eventsError (typebot : JsonValue) : List String :=
  if jsTruthyOpt (jsGet typebot "events") &&
     !(isArrayOpt (jsGet typebot "events")) then [msgEvents]
  else []

/-- `validateTypebotSchema` (src/unnamed/part_003 lines 168-220), an exact
translation: each `errors.push` guard is one of the named check functions
above, the pushes accumulate by concatenation in source order, and the two
early `return` statements are the first two `if` branches. -/
def validateTypebotSchema (json : JsonValue) : ValidationResult :=
  if !(typeofJs json = "object") || isNullJs json then
    { valid := false, data := none, errors := some [msgNotObject] }
  else
    let wsErr := wsError json
    if !(jsTruthyOpt (jsGet json "typebot")) ||
       !(typeofJsOpt (jsGet json "typebot") = "object") then
      { valid := false, data := none, errors := some (wsErr ++ [msgTypebot]) }
    else
      let typebot := (jsGet json "typebot").getD JsonValue.null
      let errors := wsErr ++ nameError typebot ++ groupsError typebot ++
        edgesError typebot ++ variablesError typebot ++ eventsError typebot
      if errors.length > 0 then { valid := false, data := none, errors := some errors }
      else { valid := true, data := some json, errors := none }

/-- Message of the extraction-failed branch of `parseTypebotJSON`. -/
def msgNoJson : String :=
  "No valid JSON found in response. Please ask the agent to output JSON only."

/-- First message of the parse-failed branch of `parseTypebotJSON`. -/
def msgInvalidSyntax : String := "Invalid JSON syntax."

/-- `parseTypebotJSON` (src/unnamed/part_003 lines 135-163).  `JSON.parse`
is a platform builtin, passed in as `jsonParse`; a thrown `SyntaxError` is
modelled as `Except.error` carrying the error's `message`. -/
def parseTypebotJSON (jsonParse : List Char → Except String JsonValue)
    (text : List Char) : ValidationResult :=
  match extractJSONFromText text with
  | none => { valid := false, data := none, errors := some [msgNoJson] }
  | some jsonString =>
    match jsonParse jsonString with
    | .error msg =>
      { valid := false, data := none, errors := some [msgInvalidSyntax, msg] }
    | .ok parsed => validateTypebotSchema parsed

/-- A downstream HTTP response as the adapter sees it, modelled from the
fetch API: `ok` is derived from the status (2xx), `body` is the raw text. -/
structure HttpResponse where
  status : Nat
  body : List Char

/-- `response.ok` of the fetch API: status in the 2xx range. -/
def respOk (r : HttpResponse) : Bool :=
  200 ≤ r.status && r.status < 300

/-- The `CreateTypebotResponse` interface of the source.  The identifier and
error fields are declared `string` in TypeScript but at runtime hold
whatever JavaScript value the untyped response data supplied, so they are
modelled as `JsonValue`s. -/
structure CreateTypebotResponse where
  success : Bool
  typebotId : Option JsonValue
  typebotUrl : Option (List Char)
  error : Option JsonValue

/-- JavaScript `a || b` on two possibly-absent values: `b` when `a` is
falsy. -/
def jsOr (a b : Option JsonValue) : Option JsonValue :=
  if jsTruthyOpt a then a else b

/-- JavaScript `a || b` where `b` is a definite value. -/
def jsOrBase (a : Option JsonValue) (b : JsonValue) : JsonValue :=
  match a with
  | some v => if jsTruthy v then v else b
  | none => b

/-- Optional chaining `a?.k`: `undefined` when `a` is `undefined` or
`null`, else property access. -/
def jsOptChain (a : Option JsonValue) (k : String) : Option JsonValue :=
  match a with
  | none => none
  | some .null => none
  | some v => jsGet v k

mutual

/-- String coercion of a value in a template literal (`String(v)`); array
elements are joined with commas, `null` elements becoming empty, as
`Array.prototype.toString` does. -/
def jsToTemplate : JsonValue → List Char
  | .str s => s.toList
  | .num n => (toString n).toList
  | .bool b => (if b then "true" else "false").toList
  | .null => "null".toList
  | .obj _ => "[object Object]".toList
  | .arr elems => List.intercalate (",".toList) (jsToTemplateElems elems)

/-- The element coercions of an array in a template literal. -/
def jsToTemplateElems : List JsonValue → List (List Char)
  | [] => []
  | .null :: rest => [] :: jsToTemplateElems rest
  | v :: rest => jsToTemplate v :: jsToTemplateElems rest

end

/-- `getTypebotEditorUrl` (src/unnamed/part_003 lines 20-23).
`baseUrl.replace(/\/$/, '')` removes one trailing slash when present (the
anchored pattern matches only a final `/`, and non-global `replace`
replaces that single match); then the pieces are concatenated. -/
def getTypebotEditorUrl (typebotId baseUrl : List Char) : List Char :=
  let cleanBaseUrl := if baseUrl.getLast? = some '/' then baseUrl.dropLast else baseUrl
  cleanBaseUrl ++ "/typebots/".toList ++ typebotId ++ "/edit".toList

/-- Spec-side phrasing of the same normalization, following the claim's
words: "baseUrl with one trailing '/' removed, if present". -/
def stripOneTrailingSlash (baseUrl : List Char) : List Char :=
  if baseUrl.getLast? = some '/' then baseUrl.dropLast else baseUrl

/-- The generic fallback error message `Typebot API error (status)`. -/
def msgApiError (status : Nat) : String :=
  "Typebot API error (" ++ toString status ++ ")"

/-- Message of the 2xx-but-no-identifier branch. -/
def msgNoId : String := "Typebot created but no ID returned"

/-- The 2xx branch of `createTypebotViaAPI` after `response.json()`
resolved to `data`: the identifier is `data.typebot?.id || data.id`; a
falsy identifier is the no-ID failure; otherwise the success record
carries the identifier and the editor URL. -/
def createOkBranch (data : JsonValue) (apiUrl : List Char) : CreateTypebotResponse :=
  match jsOr (jsOptChain (jsGet data "typebot") "id") (jsGet data "id") with
  | none =>
    { success := false, typebotId := none, typebotUrl := none,
      error := some (.str msgNoId) }
  | some tid =>
    if !(jsTruthy tid) then
      { success := false, typebotId := none, typebotUrl := none,
        error := some (.str msgNoId) }
    else
      { success := true, typebotId := some tid,
        typebotUrl := some (getTypebotEditorUrl (jsToTemplate tid) apiUrl),
        error := none }

/-- `createTypebotViaAPI` (src/unnamed/part_003 lines 28-84) from the point
where the downstream response is available (the network call itself and its
transport errors are outside the model).  On a non-2xx response the error
body is read as text and `JSON.parse`d: on success the message is
`errorJson.message || errorJson.error || generic`, on a parse failure it is
`errorText || generic`.  On a 2xx response `response.json()` is awaited (a
rejection propagates to the surrounding catch, surfacing the parse error's
message), the identifier is `data.typebot?.id || data.id`, a falsy
identifier is the no-ID failure, and otherwise the success record carries
the editor URL built by `getTypebotEditorUrl`. -/
def createTypebotViaAPI (jsonParse : List Char → Except String JsonValue)
    (resp : HttpResponse) (apiUrl : List Char) : CreateTypebotResponse :=
  if !(respOk resp) then
    let errorText := resp.body
    let errorMessage : JsonValue :=
      match jsonParse errorText with
      | .ok errorJson =>
        jsOrBase (jsOr (jsGet errorJson "message") (jsGet errorJson "error"))
          (.str (msgApiError resp.status))
      | .error _ =>
        if errorText.isEmpty then .str (msgApiError resp.status)
        else .str (String.mk errorText)
    { success := false, typebotId := none, typebotUrl := none,
      error := some errorMessage }
  else
    match jsonParse resp.body with
    | .error msg =>
      { success := false, typebotId := none, typebotUrl := none,
        error := some (.str msg) }
    | .ok data => createOkBranch data apiUrl

/-- The `typebot` sub-object of a flow document (observation helper for
stating claims; `null` when absent). -/
def typebotOf (json : JsonValue) : JsonValue :=
  (jsGet json "typebot").getD JsonValue.null

/-- The string-valued field `key` of each element of an array value
(observation helper for stating claims). -/
def stringsAt (key : String) : Option JsonValue → List String
  | some (.arr elems) =>
    elems.filterMap (fun e =>
      match jsGet e key with
      | some (.str s) => some s
      | _ => none)
  | _ => []

/-- The ids of a document's groups. -/
def groupIds (json : JsonValue) : List String :=
  stringsAt "id" (jsGet (typebotOf json) "groups")

/-- The ids of a document's edges. -/
def edgeIds (json : JsonValue) : List String :=
  stringsAt "id" (jsGet (typebotOf json) "edges")

/-- The group ids referenced by the document's edges (`edge.to.groupId`). -/
def edgeTargetGroupIds (json : JsonValue) : List String :=
  match jsGet (typebotOf json) "edges" with
  | some (.arr elems) =>
    elems.filterMap (fun e =>
      match (jsGet e "to").bind (fun t => jsGet t "groupId") with
      | some (.str s) => some s
      | _ => none)
  | _ => []

/-- The `outgoingEdgeId` values carried by blocks of the document's groups. -/
def blockOutgoingEdgeIds (json : JsonValue) : List String :=
  match jsGet (typebotOf json) "groups" with
  | some (.arr elems) =>
    (elems.map (fun g => stringsAt "outgoingEdgeId" (jsGet g "blocks"))).flatten
  | _ => []

/-- A `ValidationResult` populates exactly one variant: valid with data and
no error list, or invalid with no data and a non-empty error list. -/
def oneVariant (r : ValidationResult) : Prop :=
  (r.valid = true ∧ (∃ d, r.data = some d) ∧ r.errors = none) ∨
  (r.valid = false ∧ r.data = none ∧ ∃ l, r.errors = some l ∧ l ≠ [])

/-- The minimal literal flow document
`{"workspaceId":"w1","typebot":{"name":"Bot","groups":[],"edges":[]}}`. -/
def minimalDoc : JsonValue :=
  .obj [("workspaceId", .str "w1"),
        ("typebot", .obj [("name", .str "Bot"),
                          ("groups", .arr []),
                          ("edges", .arr [])])]

/-- A document whose top-level shape is fully valid but whose identifier
wiring dangles: the single edge targets group id `missing-group` (no such
group), and the single block carries `outgoingEdgeId` `missing-edge` (no
such edge). -/
def danglingDoc : JsonValue :=
  .obj [("workspaceId", .str "w1"),
        ("typebot", .obj
          [("name", .str "Bot"),
           ("groups", .arr
             [.obj [("id", .str "g1"),
                    ("blocks", .arr
                      [.obj [("outgoingEdgeId", .str "missing-edge")]])]]),
           ("edges", .arr
             [.obj [("id", .str "e1"),
                    ("to", .obj [("groupId", .str "missing-group")])]])])]

/-- A document with `workspaceId` present, of string type, but empty. -/
def emptyWorkspaceIdDoc : JsonValue :=
  .obj [("workspaceId", .str ""),
        ("typebot", .obj [("name", .str "Bot"),
                          ("groups", .arr []),
                          ("edges", .arr [])])]

/-- A 500 response whose body is JSON carrying neither a `message` nor an
`error` field. -/
def respNoMessage : HttpResponse :=
  { status := 500, body := ("\x7b\"code\":42\x7d").toList }

/-- A parse oracle agreeing with `JSON.parse` on `respNoMessage`'s body:
`JSON.parse('\x7b"code":42\x7d')` yields the object with one field `code`
holding `42`. -/
def parseNoMessage : List Char → Except String JsonValue :=
  fun s =>
    if s = ("\x7b\"code\":42\x7d").toList then .ok (.obj [("code", .num 42)])
    else .error "Unexpected token"

/-- A 401 response with body `\x7b"message":"unauthorized"\x7d`. -/
def respUnauthorized : HttpResponse :=
  { status := 401, body := ("\x7b\"message\":\"unauthorized\"\x7d").toList }

/-- A parse oracle agreeing with `JSON.parse` on `respUnauthorized`'s body. -/
def parseUnauthorized : List Char → Except String JsonValue :=
  fun s =>
    if s = ("\x7b\"message\":\"unauthorized\"\x7d").toList then
      .ok (.obj [("message", .str "unauthorized")])
    else .error "Unexpected token"

/-- A 200 response whose body is `\x7b"typebot":\x7b"id":"abc123"\x7d\x7d`. -/
def respCreated : HttpResponse :=
  { status := 200, body := ("\x7b\"typebot\":\x7b\"id\":\"abc123\"\x7d\x7d").toList }

/-- A parse oracle agreeing with `JSON.parse` on `respCreated`'s body. -/
def parseCreated : List Char → Except String JsonValue :=
  fun s =>
    if s = ("\x7b\"typebot\":\x7b\"id\":\"abc123\"\x7d\x7d").toList then
      .ok (.obj [("typebot", .obj [("id", .str "abc123")])])
    else .error "Unexpected token"

theorem dropWhile_eq_self_of_head {p : Char → Bool} {s : List Char}
    (h : ∀ c, s.head? = some c → p c = false) : s.dropWhile p = s := by
  cases s with
  | nil => rfl
  | cons x xs =>
    rw [List.dropWhile_cons, h x rfl]
    simp

theorem jsTrim_eq_self {s : List Char}
    (h1 : ∀ c, s.head? = some c → isJsWS c = false)
    (h2 : ∀ c, s.getLast? = some c → isJsWS c = false) : jsTrim s = s := by
  unfold jsTrim
  rw [dropWhile_eq_self_of_head h1]
  rw [dropWhile_eq_self_of_head (by
    intro c hc
    rw [List.head?_reverse] at hc
    exact h2 c hc)]
  exact List.reverse_reverse s

theorem jsTrim_wsPre {a s : List Char} (h : ∀ c ∈ a, isJsWS c = true) :
    jsTrim (a ++ s) = jsTrim s := by
  unfold jsTrim
  rw [List.dropWhile_append_of_pos h]

theorem jsTrim_decomp (s : List Char) :
    ∃ a b, s = a ++ jsTrim s ++ b ∧ (∀ c ∈ a, isJsWS c = true) ∧
      (∀ c ∈ b, isJsWS c = true) := by
  have key : ∀ d : List Char,
      d = (d.reverse.dropWhile isJsWS).reverse ++ (d.reverse.takeWhile isJsWS).reverse := by
    intro d
    conv_lhs => rw [← List.reverse_reverse d]
    rw [← List.reverse_append]
    congr 1
    exact (List.takeWhile_append_dropWhile isJsWS d.reverse).symm
  refine ⟨s.takeWhile isJsWS,
    ((s.dropWhile isJsWS).reverse.takeWhile isJsWS).reverse, ?_, ?_, ?_⟩
  · conv_lhs => rw [← List.takeWhile_append_dropWhile isJsWS s,
      key (s.dropWhile isJsWS)]
    rw [List.append_assoc]
    rfl
  · exact fun c hc => List.mem_takeWhile_imp hc
  · intro c hc
    rw [List.mem_reverse] at hc
    exact List.mem_takeWhile_imp hc

theorem jsTrim_wsSuf {s b : List Char} (h : ∀ c ∈ b, isJsWS c = true) :
    jsTrim (s ++ b) = jsTrim s := by
  unfold jsTrim
  congr 1
  rw [List.dropWhile_append]
  split
  · next hemp =>
    rw [List.isEmpty_iff] at hemp
    have hb : b.dropWhile isJsWS = [] := List.dropWhile_eq_nil_iff.mpr h
    rw [hb, hemp]
  · next hemp =>
    rw [List.reverse_append]
    refine List.dropWhile_append_of_pos ?_
    intro c hc
    rw [List.mem_reverse] at hc
    exact h c hc

theorem jsTrim_idem (s : List Char) : jsTrim (jsTrim s) = jsTrim s := by
  obtain ⟨a, b, hs, ha, hb⟩ := jsTrim_decomp s
  have h1 : jsTrim (a ++ (jsTrim s ++ b)) = jsTrim (jsTrim s ++ b) := jsTrim_wsPre ha
  have h2 : jsTrim (jsTrim s ++ b) = jsTrim (jsTrim s) := jsTrim_wsSuf hb
  have h3 : jsTrim s = jsTrim (jsTrim s) := by
    conv_lhs => rw [hs, List.append_assoc]
    rw [h1, h2]
  exact h3.symm

theorem fenceMark_eq : fenceMark = '\x60' :: '\x60' :: '\x60' :: [] := by decide

theorem occursIn_iff {pat s : List Char} :
    occursIn pat s = true ↔ ∃ u v, s = u ++ pat ++ v := by
  induction s with
  | nil =>
    rw [occursIn, List.isPrefixOf_iff_prefix, List.prefix_nil]
    constructor
    · rintro rfl
      exact ⟨[], [], rfl⟩
    · rintro ⟨u, v, huv⟩
      have hl := congrArg List.length huv
      simp only [List.length_nil, List.length_append] at hl
      have : pat.length = 0 := by omega
      exact List.length_eq_zero.mp this
  | cons c rest ih =>
    rw [occursIn, Bool.or_eq_true, ih, List.isPrefixOf_iff_prefix]
    constructor
    · rintro (⟨t, ht⟩ | ⟨u, v, rfl⟩)
      · exact ⟨[], t, by rw [← ht]; rfl⟩
      · exact ⟨c :: u, v, rfl⟩
    · rintro ⟨u, v, huv⟩
      cases u with
      | nil =>
        left
        exact ⟨v, by rw [List.nil_append] at huv; exact huv.symm⟩
      | cons x u' =>
        right
        rw [List.cons_append, List.cons_append] at huv
        injection huv with h1 h2
        exact ⟨u', v, h2⟩

theorem occursIn_of_middle {pat a m b : List Char} (h : occursIn pat m = true) :
    occursIn pat (a ++ m ++ b) = true := by
  rw [occursIn_iff] at h ⊢
  obtain ⟨u, v, rfl⟩ := h
  exact ⟨a ++ u, v ++ b, by simp⟩

theorem splitFirstFence_eq_none {s : List Char} (h : occursIn fenceMark s = false) :
    splitFirstFence s = none := by
  induction s with
  | nil => rfl
  | cons c rest ih =>
    rw [occursIn, Bool.or_eq_false_iff] at h
    rw [splitFirstFence, if_neg (by rw [h.1]; exact Bool.false_ne_true),
      ih h.2]
    rfl

theorem splitFirstFence_concat {u v : List Char} (h : ∀ c ∈ u, c ≠ '\x60') :
    splitFirstFence (u ++ fenceMark ++ v) = some (u, v) := by
  induction u with
  | nil =>
    rw [fenceMark_eq]
    show splitFirstFence ('\x60' :: '\x60' :: '\x60' :: v) = some ([], v)
    rw [splitFirstFence, if_pos (by rw [fenceMark_eq]; simp [List.isPrefixOf])]
    rfl
  | cons c u' ih =>
    rw [List.append_assoc, List.cons_append, splitFirstFence,
      if_neg (by
        rw [fenceMark_eq]
        simp only [List.isPrefixOf, Bool.and_eq_true, beq_iff_eq]
        intro hcontra
        exact h c (List.mem_cons_self c u') hcontra.1.symm),
      ← List.append_assoc, ih (fun x hx => h x (List.mem_cons_of_mem c hx))]
    rfl

theorem takeThroughLast_eq_none {c : Char} {xs : List Char} (h : c ∉ xs) :
    takeThroughLast c xs = none := by
  induction xs with
  | nil => rfl
  | cons x rest ih =>
    rw [takeThroughLast, ih (fun hc => h (List.mem_cons_of_mem x hc))]
    exact if_neg (fun hx => h (by rw [← hx]; exact List.mem_cons_self x rest))

theorem takeThroughLast_concat {c : Char} {xs ys : List Char} (h : c ∉ ys) :
    takeThroughLast c (xs ++ c :: ys) = some (xs ++ [c]) := by
  induction xs with
  | nil =>
    show takeThroughLast c (c :: ys) = some [c]
    rw [takeThroughLast, takeThroughLast_eq_none h, if_pos rfl]
  | cons x rest ih =>
    rw [List.cons_append, takeThroughLast, ih]
    rfl

theorem dropWhile_head_not {p : Char → Bool} {l : List Char} {y : Char}
    {t : List Char} (h : l.dropWhile p = y :: t) : p y = false := by
  induction l with
  | nil => exact absurd h (by simp)
  | cons x xs ih =>
    rw [List.dropWhile_cons] at h
    by_cases hp : p x = true
    · rw [if_pos hp] at h
      exact ih h
    · rw [if_neg hp] at h
      injection h with h1 _
      rw [← h1]
      exact Bool.not_eq_true _ |>.mp hp

theorem takeThroughLast_of_rev {c : Char} {rest : List Char}
    (h : rest.reverse.dropWhile (fun x => x != c) ≠ []) :
    takeThroughLast c rest =
      some ((rest.reverse.dropWhile (fun x => x != c)).reverse) := by
  obtain ⟨y, w, hd⟩ : ∃ y w, rest.reverse.dropWhile (fun x => x != c) = y :: w := by
    cases hh : rest.reverse.dropWhile (fun x => x != c) with
    | nil => exact absurd hh h
    | cons y w => exact ⟨y, w, rfl⟩
  have hy : y = c := by simpa using dropWhile_head_not hd
  subst hy
  have h1 : rest.reverse = rest.reverse.takeWhile (fun x => x != y) ++ y :: w := by
    conv_lhs => rw [← List.takeWhile_append_dropWhile (fun x => x != y) rest.reverse]
    rw [hd]
  have hrest : rest =
      w.reverse ++ y :: (rest.reverse.takeWhile (fun x => x != y)).reverse := by
    calc rest = rest.reverse.reverse := (List.reverse_reverse rest).symm
    _ = (rest.reverse.takeWhile (fun x => x != y) ++ y :: w).reverse := by rw [← h1]
    _ = (y :: w).reverse ++ (rest.reverse.takeWhile (fun x => x != y)).reverse := by
        rw [List.reverse_append]
    _ = w.reverse ++ y :: (rest.reverse.takeWhile (fun x => x != y)).reverse := by
        rw [List.reverse_cons, List.append_assoc]
        rfl
  have hnotin : y ∉ (rest.reverse.takeWhile (fun x => x != y)).reverse := by
    intro hmem
    rw [List.mem_reverse] at hmem
    have := List.mem_takeWhile_imp hmem
    simp at this
  conv_lhs => rw [hrest]
  rw [takeThroughLast_concat hnotin, hd, List.reverse_cons]

theorem braceSpan_eq_none {s : List Char} (h : '}' ∉ s) : braceSpan s = none := by
  induction s with
  | nil => rfl
  | cons c rest ih =>
    have hrest : '}' ∉ rest := fun hc => h (List.mem_cons_of_mem c hc)
    rw [braceSpan]
    by_cases hc : c = '{'
    · rw [if_pos hc, takeThroughLast_eq_none hrest]
      exact ih hrest
    · rw [if_neg hc]
      exact ih hrest

theorem braceSpan_skip {a s : List Char} (h : ∀ c ∈ a, c ≠ '{') :
    braceSpan (a ++ s) = braceSpan s := by
  induction a with
  | nil => rfl
  | cons c a' ih =>
    rw [List.cons_append, braceSpan,
      if_neg (h c (List.mem_cons_self c a')),
      ih (fun x hx => h x (List.mem_cons_of_mem c hx))]

theorem braceSpan_eq_specBraceSpan (s : List Char) : braceSpan s = specBraceSpan s := by
  induction s with
  | nil => rfl
  | cons c rest ih =>
    by_cases hc : c = '{'
    · subst hc
      rw [braceSpan, if_pos rfl]
      have hdw : List.dropWhile (fun c => c != '{') ('{' :: rest) = '{' :: rest := by
        rw [List.dropWhile_cons]
        simp
      simp only [specBraceSpan, hdw, List.reverse_cons, List.dropWhile_append]
      by_cases hemp : rest.reverse.dropWhile (fun x => x != '}') = []
      · have h1 : '}' ∉ rest := by
          intro hmem
          rw [List.dropWhile_eq_nil_iff] at hemp
          have := hemp '}' (List.mem_reverse.mpr hmem)
          simp at this
        rw [takeThroughLast_eq_none h1, braceSpan_eq_none h1, hemp]
        simp [List.dropWhile]
      · rw [takeThroughLast_of_rev hemp]
        have hb : (List.dropWhile (fun c => c != '}') rest.reverse).isEmpty = false := by
          cases h' : (List.dropWhile (fun c => c != '}') rest.reverse).isEmpty
          · rfl
          · exact absurd (List.isEmpty_iff.mp h') hemp
        simp [hb, List.reverse_append]
    · rw [braceSpan, if_neg hc, ih]
      unfold specBraceSpan
      have hdw : List.dropWhile (fun x => x != '{') (c :: rest) =
          List.dropWhile (fun x => x != '{') rest := by
        rw [List.dropWhile_cons, if_pos (bne_iff_ne.mpr hc)]
      rw [hdw]

theorem extract_eq_specExtract (s : List Char) :
    extractJSONFromText s = specExtract s := by
  unfold extractJSONFromText specExtract
  rw [braceSpan_eq_specBraceSpan]

theorem isJsWS_ne_brace {c : Char} (h : isJsWS c = true) : c ≠ '{' := by
  intro hc
  rw [hc] at h
  exact absurd h (by decide)

theorem isJsWS_ne_close {c : Char} (h : isJsWS c = true) : c ≠ '}' := by
  intro hc
  rw [hc] at h
  exact absurd h (by decide)

theorem extract_bare {s : List Char}
    (hf : occursIn fenceMark s = false)
    (hh : (jsTrim s).head? = some '{')
    (hl : (jsTrim s).getLast? = some '}') :
    extractJSONFromText s = some (jsTrim s) := by
  have hm : matchFencedBlock s = none := by
    rw [matchFencedBlock, splitFirstFence_eq_none hf]
  obtain ⟨tl, htl⟩ := List.head?_eq_some_iff.mp hh
  obtain ⟨ys, hys⟩ := List.getLast?_eq_some_iff.mp hl
  obtain ⟨a, b, hs, ha, hb⟩ := jsTrim_decomp s
  cases ys with
  | nil =>
    rw [htl] at hys
    injection hys with h1 _
    exact absurd h1 (by decide)
  | cons y ys' =>
    have hy : y = '{' ∧ tl = ys' ++ ['}'] := by
      rw [htl, List.cons_append] at hys
      injection hys with h1 h2
      exact ⟨h1.symm, h2⟩
    have hform : jsTrim s = '{' :: (ys' ++ ['}']) := by
      rw [htl, hy.2]
    have hbs : braceSpan s = some (jsTrim s) := by
      conv_lhs => rw [hs, List.append_assoc]
      rw [braceSpan_skip (fun c hc => isJsWS_ne_brace (ha c hc))]
      have hshape : jsTrim s ++ b = '{' :: (ys' ++ '}' :: b) := by
        rw [hform]
        simp
      rw [hshape, braceSpan, if_pos rfl,
        takeThroughLast_concat (fun hc => isJsWS_ne_close (hb '}' hc) rfl)]
      rw [hform]
    rw [extractJSONFromText, hm, hbs]
    simp [jsTrim_idem]

theorem jsTrim_of_all_ws {j : List Char} (h : ∀ c ∈ j, isJsWS c = true) :
    jsTrim j = [] := by
  unfold jsTrim
  rw [List.dropWhile_eq_nil_iff.mpr h]
  rfl

theorem matchFenced_single_block {pre tag j post : List Char}
    (htag : tag = [] ∨ tag = "json".toList)
    (hpre : ∀ c ∈ pre, c ≠ '\x60') (hj : ∀ c ∈ j, c ≠ '\x60') :
    ∃ cap, matchFencedBlock
        (pre ++ fenceMark ++ (tag ++ ('\n' :: j) ++ ('\n' :: fenceMark) ++ post))
        = some cap ∧ jsTrim cap = jsTrim j := by
  have h1 : splitFirstFence
      (pre ++ fenceMark ++ (tag ++ ('\n' :: j) ++ ('\n' :: fenceMark) ++ post)) =
      some (pre, tag ++ ('\n' :: j) ++ ('\n' :: fenceMark) ++ post) :=
    splitFirstFence_concat hpre
  have h2 : stripTagJson (tag ++ ('\n' :: j) ++ ('\n' :: fenceMark) ++ post) =
      ('\n' :: j) ++ ('\n' :: fenceMark) ++ post := by
    cases htag with
    | inl h =>
      subst h
      rw [List.nil_append]
      unfold stripTagJson
      rw [if_neg (by
        rw [List.isPrefixOf_iff_prefix]
        rintro ⟨t, ht⟩
        rw [List.cons_append] at ht
        have hne : 'j' = '\n' := by
          have := congrArg List.head? ht
          simp at this
        exact absurd hne (by decide))]
    | inr h =>
      subst h
      unfold stripTagJson
      rw [List.append_assoc, List.append_assoc]
      rw [if_pos (by
        rw [List.isPrefixOf_iff_prefix]
        exact List.prefix_append _ _)]
      have hlen : ("json".toList).length = 4 := rfl
      rw [← hlen, List.drop_left]
      simp [List.append_assoc]
  have hsplit2 : ∀ u v : List Char, (∀ c ∈ u, c ≠ '\x60') →
      splitFirstFence (u ++ ('\n' :: fenceMark) ++ v) =
        some (u ++ ['\n'], v) := by
    intro u v hu
    have hshape : u ++ ('\n' :: fenceMark) ++ v = (u ++ ['\n']) ++ fenceMark ++ v := by
      simp
    rw [hshape]
    refine splitFirstFence_concat ?_
    intro c hc
    rw [List.mem_append] at hc
    cases hc with
    | inl h => exact hu c h
    | inr h =>
      rw [List.mem_singleton] at h
      rw [h]
      decide
  by_cases hd : j.dropWhile isJsWS = []
  · -- the fenced body is entirely whitespace
    have hall : ∀ c ∈ j, isJsWS c = true := List.dropWhile_eq_nil_iff.mp hd
    have h3 : (('\n' :: j) ++ ('\n' :: fenceMark) ++ post).dropWhile isJsWS =
        fenceMark ++ post := by
      simp only [List.cons_append, List.append_assoc]
      rw [List.dropWhile_cons, if_pos (by decide)]
      rw [List.dropWhile_append_of_pos hall]
      rw [List.dropWhile_cons, if_pos (by decide)]
      refine dropWhile_eq_self_of_head ?_
      intro c hc
      rw [fenceMark_eq, List.cons_append] at hc
      simp at hc
      rw [← hc]
      decide
    have h4 : splitFirstFence (fenceMark ++ post) = some ([], post) := by
      have := splitFirstFence_concat (u := []) (v := post) (by intro c hc; cases hc)
      rwa [List.nil_append] at this
    refine ⟨[], ?_, ?_⟩
    · rw [matchFencedBlock, h1]
      simp only [h2, h3, h4]
      simp
    · rw [jsTrim_of_all_ws hall]
      rfl
  · -- the fenced body has a first non-whitespace character x
    obtain ⟨x, m, hxm⟩ : ∃ x m, j.dropWhile isJsWS = x :: m := by
      cases hh : j.dropWhile isJsWS with
      | nil => exact absurd hh hd
      | cons x m => exact ⟨x, m, rfl⟩
    have hxws : isJsWS x = false := dropWhile_head_not hxm
    have hjdecomp : j = j.takeWhile isJsWS ++ (x :: m) := by
      conv_lhs => rw [← List.takeWhile_append_dropWhile isJsWS j]
      rw [hxm]
    have h3 : (('\n' :: j) ++ ('\n' :: fenceMark) ++ post).dropWhile isJsWS =
        (x :: m) ++ ('\n' :: fenceMark) ++ post := by
      simp only [List.cons_append, List.append_assoc]
      rw [List.dropWhile_cons, if_pos (by decide)]
      conv_lhs => rw [hjdecomp, List.append_assoc]
      rw [List.dropWhile_append_of_pos (fun c hc => List.mem_takeWhile_imp hc)]
      rw [List.cons_append, List.dropWhile_cons,
        if_neg (by rw [hxws]; exact Bool.false_ne_true)]
    have hxmj : ∀ c ∈ x :: m, c ≠ '\x60' := by
      intro c hc
      refine hj c ?_
      have hsub : (x :: m).Sublist j := hxm ▸ List.dropWhile_sublist isJsWS
      exact List.Sublist.mem hc hsub
    have h4 := hsplit2 (x :: m) post hxmj
    refine ⟨x :: m, ?_, ?_⟩
    · rw [matchFencedBlock, h1]
      simp only [h2, h3, h4]
      have hg : ((x :: m) ++ ['\n']).getLast? = some '\n' := List.getLast?_concat _
      have hcap : ((x :: m) ++ ['\n']).dropLast = x :: m := List.dropLast_concat
      rw [hg, if_pos rfl, hcap]
    · conv_rhs => rw [hjdecomp]
      rw [jsTrim_wsPre (fun c hc => List.mem_takeWhile_imp hc)]

/-- C1: for every input text the Extractor applies its strategies in the
stated priority order — fenced-block interior trimmed; else the span from
the first opening brace to the last closing brace, trimmed; else the
trimmed text when brace-delimited; else the not-found outcome — and for
any text holding a single well-formed JSON object inside a fenced block
(optionally tagged `json`; no stray backtick around or inside the block)
it returns exactly that object's text, trimmed. -/
theorem C1_extractor_priority_order :
    (∀ text : List Char, extractJSONFromText text = specExtract text) ∧
    (∀ pre tag j post : List Char,
      (tag = [] ∨ tag = "json".toList) →
      (∀ c ∈ pre, c ≠ '\x60') → (∀ c ∈ j, c ≠ '\x60') →
      extractJSONFromText
        (pre ++ fenceMark ++ (tag ++ ('\n' :: j) ++ ('\n' :: fenceMark) ++ post))
        = some (jsTrim j)) := by
  constructor
  · exact extract_eq_specExtract
  · intro pre tag j post htag hpre hj
    obtain ⟨cap, hm, hcap⟩ := matchFenced_single_block htag hpre hj
    rw [extractJSONFromText, hm]
    show some (jsTrim cap) = some (jsTrim j)
    rw [hcap]

/-- Witness for C1: a concrete prose-wrapped `json`-tagged fenced block. -/
theorem C1_extractor_priority_order_witness :
    extractJSONFromText
      ((" before ".toList) ++ fenceMark ++ (("json".toList) ++
        ('\n' :: (" \x7b\"a\": 1\x7d ".toList)) ++ ('\n' :: fenceMark) ++
        (" after".toList)))
      = some (jsTrim (" \x7b\"a\": 1\x7d ".toList)) :=
  C1_extractor_priority_order.2 _ _ _ _ (Or.inr rfl) (by decide) (by decide)

/-- C8: for any fence-free text whose trimmed form starts with an opening
brace and ends with a closing brace, the Extractor returns the trimmed text
unchanged, and extraction applied to that output returns it again
(idempotence). -/
theorem C8_extractor_idempotent_on_bare :
    ∀ s : List Char, occursIn fenceMark s = false →
      (jsTrim s).head? = some '{' → (jsTrim s).getLast? = some '}' →
      extractJSONFromText s = some (jsTrim s) ∧
      extractJSONFromText (jsTrim s) = some (jsTrim s) := by
  intro s hf hh hl
  refine ⟨extract_bare hf hh hl, ?_⟩
  have hf2 : occursIn fenceMark (jsTrim s) = false := by
    obtain ⟨a, b, hs, _, _⟩ := jsTrim_decomp s
    cases h' : occursIn fenceMark (jsTrim s) with
    | false => rfl
    | true =>
      exfalso
      rw [hs, occursIn_of_middle h'] at hf
      exact Bool.noConfusion hf
  have hidem := jsTrim_idem s
  have h2 := extract_bare hf2 (by rw [hidem]; exact hh) (by rw [hidem]; exact hl)
  rw [hidem] at h2
  exact h2

/-- Witness for C8: a concrete whitespace-wrapped bare JSON object. -/
theorem C8_extractor_idempotent_on_bare_witness :
    extractJSONFromText (("  \x7b\"a\": 1\x7d ".toList)) =
      some (jsTrim ("  \x7b\"a\": 1\x7d ".toList)) ∧
    extractJSONFromText (jsTrim ("  \x7b\"a\": 1\x7d ".toList)) =
      some (jsTrim ("  \x7b\"a\": 1\x7d ".toList)) :=
  C8_extractor_idempotent_on_bare _ (by decide) (by decide) (by decide)

/-- C2: the Validator accumulates errors: for any object missing
`workspaceId` whose `typebot` is present as an object, the result is
Invalid with the message naming `workspaceId`, independently of the other
fields — an also-missing `typebot.name` contributes a second message to the
same result — and the input with only an empty `typebot` object yields at
least four messages. -/
theorem C2_validator_accumulates :
    (∀ fields tfields : List (String × JsonValue),
      jsGet (.obj fields) "workspaceId" = none →
      jsGet (.obj fields) "typebot" = some (.obj tfields) →
      (validateTypebotSchema (.obj fields)).valid = false ∧
      ∃ l, (validateTypebotSchema (.obj fields)).errors = some l ∧
        msgWorkspaceId ∈ l ∧
        (jsGet (.obj tfields) "name" = none → msgName ∈ l)) ∧
    occursIn ("workspaceId".toList) (msgWorkspaceId.toList) = true ∧
    (∃ l, (validateTypebotSchema (.obj [("typebot", .obj [])])).errors = some l ∧
      (validateTypebotSchema (.obj [("typebot", .obj [])])).valid = false ∧
      4 ≤ l.length) := by
  refine ⟨?_, by decide, ?_⟩
  · intro fields tfields hws htb
    unfold validateTypebotSchema wsError nameError groupsError edgesError
      variablesError eventsError
    rw [hws, htb]
    simp only [typeofJs, isNullJs, jsTruthyOpt, typeofJsOpt, jsTruthy, Option.getD]
    simp only [decide_True, decide_False]
    simp
    intro hname
    simp [hname]
  · exact ⟨[msgWorkspaceId, msgName, msgGroups, msgEdges], rfl, rfl, by decide⟩

/-- Witness for C2: the general accumulation statement applied to the
concrete object holding only an empty typebot. -/
theorem C2_validator_accumulates_witness :
    (validateTypebotSchema (.obj [("typebot", .obj [])])).valid = false ∧
    ∃ l, (validateTypebotSchema (.obj [("typebot", .obj [])])).errors = some l ∧
      msgWorkspaceId ∈ l ∧
      (jsGet (.obj ([] : List (String × JsonValue))) "name" = none → msgName ∈ l) :=
  C2_validator_accumulates.1 _ [] rfl rfl

/-- C3: the minimal literal document validates as Valid wrapping exactly
the input object, unchanged. -/
theorem C3_minimal_document_valid :
    validateTypebotSchema minimalDoc =
      { valid := true, data := some minimalDoc, errors := none } := rfl

/-- C7: the Validator checks only top-level shape: a document whose single
edge targets a group id absent from the groups and whose single block
carries an `outgoingEdgeId` matching no edge id still validates as Valid,
wrapping the input. -/
theorem C7_validator_ignores_wiring :
    (validateTypebotSchema danglingDoc).valid = true ∧
    (validateTypebotSchema danglingDoc).data = some danglingDoc ∧
    edgeTargetGroupIds danglingDoc = ["missing-group"] ∧
    groupIds danglingDoc = ["g1"] ∧
    blockOutgoingEdgeIds danglingDoc = ["missing-edge"] ∧
    edgeIds danglingDoc = ["e1"] ∧
    ((edgeTargetGroupIds danglingDoc).all
      (fun t => !((groupIds danglingDoc).contains t))) = true ∧
    ((blockOutgoingEdgeIds danglingDoc).all
      (fun o => !((edgeIds danglingDoc).contains o))) = true :=
  ⟨rfl, rfl, rfl, rfl, rfl, rfl, rfl, rfl⟩

theorem mem_ite_single {c : Prop} [inst : Decidable c] {m x : String}
    (h : x ∈ (if c then [m] else ([] : List String))) : x = m ∧ c := by
  by_cases hc : c
  · rw [if_pos hc] at h
    simp at h
    exact ⟨h, hc⟩
  · rw [if_neg hc] at h
    cases h

theorem validate_mem_errors {v : JsonValue} {l : List String} {x : String}
    (h : (validateTypebotSchema v).errors = some l) (hx : x ∈ l) :
    x = msgNotObject ∨
    (x = msgWorkspaceId ∧ (jsTruthyOpt (jsGet v "workspaceId") = false ∨
      ¬ typeofJsOpt (jsGet v "workspaceId") = "string")) ∨
    x = msgTypebot ∨ x = msgName ∨ x = msgGroups ∨ x = msgEdges ∨
    x = msgVariables ∨ x = msgEvents := by
  unfold validateTypebotSchema at h
  split at h
  · left
    have hl := Option.some.inj h
    rw [← hl] at hx
    simpa using hx
  · split at h
    · have hl := Option.some.inj h
      rw [← hl] at hx
      rcases List.mem_append.mp hx with h1 | h2
      · obtain ⟨hx1, hc⟩ := mem_ite_single h1
        exact Or.inr (Or.inl ⟨hx1, by simpa using hc⟩)
      · simp at h2
        exact Or.inr (Or.inr (Or.inl h2))
    · simp only [] at h
      split at h
      · have hl := Option.some.inj h
        rw [← hl] at hx
        rcases List.mem_append.mp hx with h5 | hev
        · rcases List.mem_append.mp h5 with h4 | hvar
          · rcases List.mem_append.mp h4 with h3 | hedg
            · rcases List.mem_append.mp h3 with h2 | hgrp
              · rcases List.mem_append.mp h2 with hws | hnam
                · obtain ⟨hx1, hc⟩ := mem_ite_single hws
                  exact Or.inr (Or.inl ⟨hx1, by simpa using hc⟩)
                · exact Or.inr (Or.inr (Or.inr (Or.inl (mem_ite_single hnam).1)))
              · exact Or.inr (Or.inr (Or.inr (Or.inr (Or.inl
                  (mem_ite_single hgrp).1))))
            · exact Or.inr (Or.inr (Or.inr (Or.inr (Or.inr (Or.inl
                (mem_ite_single hedg).1)))))
          · exact Or.inr (Or.inr (Or.inr (Or.inr (Or.inr (Or.inr (Or.inl
              (mem_ite_single hvar).1))))))
        · exact Or.inr (Or.inr (Or.inr (Or.inr (Or.inr (Or.inr (Or.inr
            (mem_ite_single hev).1))))))
      · exact absurd h (by simp)

/-- C9 counterexample: `workspaceId` present with a string value (the empty
string) is nevertheless flagged — the source's truthiness test
`!json.workspaceId` rejects `""` — so presence plus string type is not
sufficient, refuting the claim's universal statement. -/
theorem C9_empty_workspaceId_flagged :
    jsGet emptyWorkspaceIdDoc "workspaceId" = some (.str "") ∧
    typeofJsOpt (jsGet emptyWorkspaceIdDoc "workspaceId") = "string" ∧
    (validateTypebotSchema emptyWorkspaceIdDoc).errors = some [msgWorkspaceId] ∧
    (validateTypebotSchema emptyWorkspaceIdDoc).valid = false :=
  ⟨rfl, rfl, rfl, rfl⟩

/-- C9 (amended): for every input whose `workspaceId` is present with a
non-empty string value, the Validator emits no message naming
`workspaceId`; non-emptiness is the one extra condition the source's
truthiness test imposes on the string's content. -/
theorem C9_nonempty_workspaceId_never_flagged :
    ∀ (json : JsonValue) (s : String) (l : List String),
      jsGet json "workspaceId" = some (.str s) → s ≠ "" →
      (validateTypebotSchema json).errors = some l →
      msgWorkspaceId ∉ l := by
  intro json s l hws hs hl hmem
  rcases validate_mem_errors hl hmem with h | ⟨_, hcond⟩ | h | h | h | h | h | h
  · exact absurd h (by decide)
  · rw [hws] at hcond
    rcases hcond with hc | hc
    · rw [show (jsTruthyOpt (some (JsonValue.str s)) = (s != "")) from rfl] at hc
      exact hs (by simpa using hc)
    · exact hc rfl
  · exact absurd h (by decide)
  · exact absurd h (by decide)
  · exact absurd h (by decide)
  · exact absurd h (by decide)
  · exact absurd h (by decide)
  · exact absurd h (by decide)

/-- Witness for C9 (amended): a non-empty `workspaceId` with an otherwise
faulty typebot produces three messages, none naming workspaceId. -/
theorem C9_nonempty_workspaceId_never_flagged_witness :
    msgWorkspaceId ∉ [msgName, msgGroups, msgEdges] :=
  C9_nonempty_workspaceId_never_flagged
    (.obj [("workspaceId", .str "w1"), ("typebot", .obj [])]) "w1"
    [msgName, msgGroups, msgEdges] rfl (by decide) rfl

theorem validate_oneVariant (v : JsonValue) :
    oneVariant (validateTypebotSchema v) := by
  unfold oneVariant validateTypebotSchema
  split
  · exact Or.inr ⟨rfl, rfl, [msgNotObject], rfl, by simp⟩
  · split
    · exact Or.inr ⟨rfl, rfl, wsError v ++ [msgTypebot], rfl, by simp⟩
    · simp only []
      split
      · next hlen =>
        refine Or.inr ⟨rfl, rfl, _, rfl, ?_⟩
        intro hnil
        rw [hnil] at hlen
        simp at hlen
      · exact Or.inl ⟨rfl, ⟨v, rfl⟩, rfl⟩

/-- C4: every result of `parseTypebotJSON` and of `validateTypebotSchema`
populates exactly one variant: valid with data present and no error list,
or invalid with no data and a non-empty error list — whatever the input
text and whatever the parse oracle's behaviour. -/
theorem C4_result_exactly_one_variant :
    ∀ (jsonParse : List Char → Except String JsonValue) (text : List Char)
      (v : JsonValue),
      oneVariant (parseTypebotJSON jsonParse text) ∧
      oneVariant (validateTypebotSchema v) := by
  intro p text v
  refine ⟨?_, validate_oneVariant v⟩
  unfold parseTypebotJSON
  cases hext : extractJSONFromText text with
  | none => exact Or.inr ⟨rfl, rfl, [msgNoJson], rfl, by simp⟩
  | some js =>
    show oneVariant (match p js with
      | .error msg =>
        { valid := false, data := none, errors := some [msgInvalidSyntax, msg] }
      | .ok parsed => validateTypebotSchema parsed)
    cases p js with
    | error m => exact Or.inr ⟨rfl, rfl, [msgInvalidSyntax, m], rfl, by simp⟩
    | ok parsed => exact validate_oneVariant parsed

/-- C10: `getTypebotEditorUrl` removes exactly one trailing slash of the
base URL before concatenating `/typebots/⟨id⟩/edit`, so a base URL ending
in a single slash and the same URL without it produce identical editor
URLs. -/
theorem C10_editor_url_normalizes_slash :
    (∀ typebotId baseUrl : List Char,
      getTypebotEditorUrl typebotId baseUrl =
        stripOneTrailingSlash baseUrl ++ "/typebots/".toList ++ typebotId ++
          "/edit".toList) ∧
    (∀ typebotId baseUrl : List Char, baseUrl.getLast? ≠ some '/' →
      getTypebotEditorUrl typebotId (baseUrl ++ ['/']) =
        getTypebotEditorUrl typebotId baseUrl) := by
  constructor
  · intro id base
    rfl
  · intro id base h
    simp only [getTypebotEditorUrl, List.getLast?_concat, List.dropLast_concat,
      if_pos, if_neg h]

/-- Witness for C10: slash and no-slash base URLs give the same editor URL. -/
theorem C10_editor_url_normalizes_slash_witness :
    getTypebotEditorUrl ("abc".toList) (("https://example.com".toList) ++ ['/']) =
      getTypebotEditorUrl ("abc".toList) ("https://example.com".toList) :=
  C10_editor_url_normalizes_slash.2 _ _ (by decide)

/-- C5 counterexample: a 500 response whose body is JSON but carries
neither a `message` nor an `error` field ({"code":42}, which `JSON.parse`
accepts, as the oracle `parseNoMessage` reflects) yields the generic
status string, not the body verbatim — refuting "surfaces the downstream
error body verbatim when the body parses as JSON" as stated. -/
theorem C5_json_body_not_surfaced_verbatim :
    (createTypebotViaAPI parseNoMessage respNoMessage
        ("https://example.com".toList)).error = some (.str (msgApiError 500)) ∧
    (createTypebotViaAPI parseNoMessage respNoMessage
        ("https://example.com".toList)).error
      ≠ some (.str (String.mk respNoMessage.body)) ∧
    (createTypebotViaAPI parseNoMessage respNoMessage
        ("https://example.com".toList)).success = false := by
  refine ⟨rfl, ?_, rfl⟩
  intro h
  have h2 := Option.some.inj h
  injection h2 with h3
  exact absurd h3 (by decide)

theorem jsOrBase_of_falsy {a : Option JsonValue} {b : JsonValue}
    (h : jsTruthyOpt a = false) : jsOrBase a b = b := by
  cases a with
  | none => rfl
  | some v =>
    simp only [jsTruthyOpt] at h
    simp only [jsOrBase]
    rw [if_neg (by rw [h]; simp)]

/-- C5 (amended): on every non-2xx response the Submission Adapter fails,
and its message follows the source's `errorJson.message || errorJson.error
|| generic` chain: the parsed body's `message` field when that is a truthy
string; otherwise the body's `error` field when the message is absent or
falsy and the error field is a truthy string; the generic status string
when neither field is truthy; and the raw body text when the body does not
parse as JSON and is non-empty.  In particular the mocked 401
`unauthorized` body yields the message `unauthorized`, not a generic
status-code string. -/
theorem C5_error_message_policy :
    (∀ (p : List Char → Except String JsonValue) (resp : HttpResponse)
       (apiUrl : List Char) (ej : JsonValue) (m : String),
      respOk resp = false →
      ((p resp.body = .ok ej → jsGet ej "message" = some (.str m) → m ≠ "" →
          (createTypebotViaAPI p resp apiUrl).error = some (.str m)) ∧
       (p resp.body = .ok ej → jsTruthyOpt (jsGet ej "message") = false →
          jsGet ej "error" = some (.str m) → m ≠ "" →
          (createTypebotViaAPI p resp apiUrl).error = some (.str m)) ∧
       (p resp.body = .ok ej → jsTruthyOpt (jsGet ej "message") = false →
          jsTruthyOpt (jsGet ej "error") = false →
          (createTypebotViaAPI p resp apiUrl).error =
            some (.str (msgApiError resp.status))) ∧
       (∀ e, p resp.body = .error e → resp.body ≠ [] →
          (createTypebotViaAPI p resp apiUrl).error =
            some (.str (String.mk resp.body))) ∧
       (createTypebotViaAPI p resp apiUrl).success = false)) ∧
    ((createTypebotViaAPI parseUnauthorized respUnauthorized
        ("https://example.com".toList)).error = some (.str "unauthorized") ∧
     (createTypebotViaAPI parseUnauthorized respUnauthorized
        ("https://example.com".toList)).success = false) := by
  refine ⟨?_, rfl, rfl⟩
  intro p resp apiUrl ej m hok
  unfold createTypebotViaAPI
  simp only [hok, Bool.not_false, if_true]
  refine ⟨?_, ?_, ?_, ?_, ?_⟩
  · intro hp hmsg hm
    rw [hp]
    show some (jsOrBase (jsOr (jsGet ej "message") (jsGet ej "error"))
      (.str (msgApiError resp.status))) = some (.str m)
    rw [hmsg]
    simp only [jsOrBase, jsOr, jsTruthyOpt, jsTruthy]
    rw [if_pos (bne_iff_ne.mpr hm)]
    show some (if (m != "") = true then JsonValue.str m
      else JsonValue.str (msgApiError resp.status)) = some (JsonValue.str m)
    rw [if_pos (bne_iff_ne.mpr hm)]
  · intro hp hmsgF herr hm
    rw [hp]
    show some (jsOrBase (jsOr (jsGet ej "message") (jsGet ej "error"))
      (.str (msgApiError resp.status))) = some (.str m)
    rw [jsOr, if_neg (by rw [hmsgF]; simp), herr]
    simp only [jsOrBase, jsTruthy]
    rw [if_pos (bne_iff_ne.mpr hm)]
  · intro hp hmsgF herrF
    rw [hp]
    show some (jsOrBase (jsOr (jsGet ej "message") (jsGet ej "error"))
      (.str (msgApiError resp.status))) = some (.str (msgApiError resp.status))
    rw [jsOr, if_neg (by rw [hmsgF]; simp), jsOrBase_of_falsy herrF]
  · intro e hp hbody
    rw [hp]
    show some (if resp.body.isEmpty = true then
        JsonValue.str (msgApiError resp.status)
      else .str (String.mk resp.body)) = some (.str (String.mk resp.body))
    rw [if_neg (by simp [List.isEmpty_iff, hbody])]
  · trivial

/-- Witness for C5 (amended): the policy applied to the mocked 401
response with body message `unauthorized`. -/
theorem C5_error_message_policy_witness :
    (createTypebotViaAPI parseUnauthorized respUnauthorized
        ("https://example.com".toList)).error = some (.str "unauthorized") :=
  (C5_error_message_policy.1 parseUnauthorized respUnauthorized
      ("https://example.com".toList) (.obj [("message", .str "unauthorized")])
      "unauthorized" rfl).1 rfl rfl (by decide)

theorem createTypebot_ok_reduce {p : List Char → Except String JsonValue}
    {resp : HttpResponse} {apiUrl : List Char} {data : JsonValue}
    (hok : respOk resp = true) (hp : p resp.body = .ok data) :
    createTypebotViaAPI p resp apiUrl = createOkBranch data apiUrl := by
  unfold createTypebotViaAPI
  rw [if_neg (by simp [hok]), hp]

theorem createOkBranch_of_some {data : JsonValue} {apiUrl : List Char}
    {id : String}
    (h : jsOr (jsOptChain (jsGet data "typebot") "id") (jsGet data "id") =
      some (.str id)) (hid : id ≠ "") :
    createOkBranch data apiUrl =
      { success := true, typebotId := some (.str id),
        typebotUrl := some (getTypebotEditorUrl (id.toList) apiUrl),
        error := none } := by
  unfold createOkBranch
  rw [h]
  simp only [jsTruthy]
  rw [if_neg (by rw [bne_iff_ne.mpr hid]; simp)]
  rfl

theorem createOkBranch_of_none {data : JsonValue} {apiUrl : List Char}
    (h : jsOr (jsOptChain (jsGet data "typebot") "id") (jsGet data "id") = none) :
    createOkBranch data apiUrl =
      { success := false, typebotId := none, typebotUrl := none,
        error := some (.str msgNoId) } := by
  unfold createOkBranch
  rw [h]

/-- C6: on every 2xx response the Submission Adapter extracts the
identifier from the nested `typebot.id` field, or from the top-level `id`
field when the nested one is absent, and succeeds with the editor URL
built from the base URL and that identifier; when neither field is present
the result is the no-identifier failure, not success.  In particular the
mocked body `(typebot.id = abc123)` with base `https://example.com` yields
identifier `abc123` and URL `https://example.com/typebots/abc123/edit`. -/
theorem C6_success_extracts_identifier :
    (∀ (p : List Char → Except String JsonValue) (resp : HttpResponse)
       (apiUrl : List Char) (data : JsonValue) (id : String),
      respOk resp = true → p resp.body = .ok data →
      ((jsOptChain (jsGet data "typebot") "id" = some (.str id) → id ≠ "" →
          createTypebotViaAPI p resp apiUrl =
            { success := true, typebotId := some (.str id),
              typebotUrl := some (getTypebotEditorUrl (id.toList) apiUrl),
              error := none }) ∧
       (jsOptChain (jsGet data "typebot") "id" = none →
          jsGet data "id" = some (.str id) → id ≠ "" →
          createTypebotViaAPI p resp apiUrl =
            { success := true, typebotId := some (.str id),
              typebotUrl := some (getTypebotEditorUrl (id.toList) apiUrl),
              error := none }) ∧
       (jsOptChain (jsGet data "typebot") "id" = none →
          jsGet data "id" = none →
          createTypebotViaAPI p resp apiUrl =
            { success := false, typebotId := none, typebotUrl := none,
              error := some (.str msgNoId) }))) ∧
    (createTypebotViaAPI parseCreated respCreated ("https://example.com".toList) =
      { success := true, typebotId := some (.str "abc123"),
        typebotUrl := some ("https://example.com/typebots/abc123/edit".toList),
        error := none }) := by
  refine ⟨?_, rfl⟩
  intro p resp apiUrl data id hok hp
  refine ⟨?_, ?_, ?_⟩
  · intro hnested hid
    rw [createTypebot_ok_reduce hok hp]
    refine createOkBranch_of_some ?_ hid
    rw [jsOr, hnested]
    simp only [jsTruthyOpt, jsTruthy]
    rw [if_pos (bne_iff_ne.mpr hid)]
  · intro hnested htop hid
    rw [createTypebot_ok_reduce hok hp]
    refine createOkBranch_of_some ?_ hid
    rw [jsOr, hnested]
    simp only [jsTruthyOpt, Bool.false_eq_true, if_false]
    exact htop
  · intro hnested htop
    rw [createTypebot_ok_reduce hok hp]
    refine createOkBranch_of_none ?_
    rw [jsOr, hnested]
    simp only [jsTruthyOpt, Bool.false_eq_true, if_false]
    exact htop

/-- Witness for C6: the general statement applied to the mocked created
response. -/
theorem C6_success_extracts_identifier_witness :
    createTypebotViaAPI parseCreated respCreated ("https://example.com".toList) =
      { success := true, typebotId := some (.str "abc123"),
        typebotUrl := some (getTypebotEditorUrl (("abc123").toList)
          ("https://example.com".toList)),
        error := none } :=
  (C6_success_extracts_identifier.1 parseCreated respCreated
      ("https://example.com".toList)
      (.obj [("typebot", .obj [("id", .str "abc123")])]) "abc123"
      rfl rfl).1 rfl (by decide)
